import Mathlib

/-!
Shallow embedding of the data transformations in the survival-analysis
notebook: the fixed-width interval partition, the per-subject death and
exposure matrices, the cumulative-hazard and survival transforms, and the
percentile bands drawn by the plotting helper.  Times, hazards, and matrix
entries are modelled as rationals (floats are rationals); the survival
transform maps into the reals through the exponential.
-/

namespace SurvivalAnalysis

/-- One row of the mastectomy data frame: elapsed time in months, the death
indicator (true when the death was observed, false when censored), and the
metastization covariate. -/
structure Subject where
  time : ℚ
  event : Bool
  metastized : Bool
deriving DecidableEq, Repr

/-- interval_length = 3 from the notebook. -/
def interval_length : ℚ := 3

/-- df.time.max(): maximum of the observed times (0 for an empty frame). -/
def maxTime (d : List Subject) : ℚ :=
  (d.map Subject.time).foldr max 0

/-- Number of elements of np.arange(0, max + interval_length + 1, interval_length),
which is the ceiling of (max + interval_length + 1) / interval_length. -/
def n_bounds (m : ℚ) : ℕ :=
  (⌈(m + interval_length + 1) / interval_length⌉).toNat

/-- interval_bounds = np.arange(0, df.time.max() + interval_length + 1, interval_length):
the arithmetic progression 0, 3, 6, ... -/
def interval_bounds (m : ℚ) : List ℚ :=
  (List.range (n_bounds m)).map (fun i : ℕ => interval_length * (i : ℚ))

/-- n_intervals = interval_bounds.size - 1. -/
def n_intervals (m : ℚ) : ℕ := n_bounds m - 1

/-- last_period = np.floor((df.time - 0.01) / interval_length).astype(int). -/
def last_period (t : ℚ) : ℤ :=
  ⌊(t - 1/100) / interval_length⌋

/-- Resolution of a possibly negative integer index against a numpy axis of
length n: a negative index k addresses position n + k. -/
def npIndex (k : ℤ) (n : ℕ) : ℕ :=
  if k < 0 then (k + n).toNat else k.toNat

/-- Row i of the death matrix: death = np.zeros((n_patients, n_intervals));
death[patients, last_period] = df.event.  Every column is 0 except the
column addressed by last_period, which holds the event indicator. -/
def death_row (n : ℕ) (s : Subject) : List ℚ :=
  (List.range n).map (fun j =>
    if j = npIndex (last_period s.time) n then (if s.event then 1 else 0) else 0)

/-- Row of the exposure matrix for a subject with time t, given max time m:
exposure = np.greater_equal.outer(df.time, interval_bounds[:-1]) * interval_length;
exposure[patients, last_period] = df.time - interval_bounds[last_period]. -/
def exposure_row (m : ℚ) (t : ℚ) : List ℚ :=
  let n := n_intervals m
  let lpcol := npIndex (last_period t) n
  let bval := (interval_bounds m).getD (npIndex (last_period t) (n_bounds m)) 0
  (List.range n).map (fun j =>
    if j = lpcol then t - bval
    else if (interval_bounds m).getD j 0 ≤ t then interval_length else 0)

/-- Running cumulative sum along a row, as in numpy cumsum(axis=-1). -/
def cumsum : List ℚ → List ℚ
  | [] => []
  | x :: xs => x :: (cumsum xs).map (fun y => x + y)

/-- cum_hazard(hazard) = (interval_length * hazard).cumsum(axis=-1). -/
def cum_hazard (hazard : List ℚ) : List ℚ :=
  cumsum (hazard.map (fun h => interval_length * h))

/-- survival(hazard) = np.exp(-cum_hazard(hazard)). -/
noncomputable def survival (hazard : List ℚ) : List ℝ :=
  (cum_hazard hazard).map (fun c : ℚ => Real.exp (-(c : ℝ)))

/-- Linear interpolation at fractional position p into a list (numpy default
percentile interpolation applied to the sorted data). -/
def interpAt (s : List ℚ) (p : ℚ) : ℚ :=
  let i : ℕ := (⌊p⌋).toNat
  let lo := s.getD i 0
  let hi := s.getD (min (i + 1) (s.length - 1)) 0
  lo + (p - (i : ℚ)) * (hi - lo)

/-- np.percentile(v, q) with the default linear interpolation: sort the data
and interpolate at position q / 100 * (n - 1). -/
def np_percentile (q : ℚ) (v : List ℚ) : ℚ :=
  match v with
  | [] => 0
  | _ => interpAt v.mergeSort (q * ((v.length : ℚ) - 1) / 100)

/-- Arithmetic mean of a list, as numpy mean. -/
def npMean (l : List ℚ) : ℚ := l.sum / l.length

/-- Column j of a matrix stored as a list of rows. -/
def matCol (mat : List (List ℚ)) (j : ℕ) : List ℚ :=
  mat.map (fun r => r.getD j 0)

/-- plot_with_hpd central curve: mean = f(hazard.mean(axis=0)), where the
matrix has w columns. -/
def hpd_mean (f : List ℚ → List ℚ) (mat : List (List ℚ)) (w : ℕ) : List ℚ :=
  f ((List.range w).map (fun j => npMean (matCol mat j)))

/-- plot_with_hpd lower band: np.percentile(f(hazard), 100 * alpha / 2, axis=0). -/
def hpd_lower (f : List ℚ → List ℚ) (mat : List (List ℚ)) (w : ℕ) (alpha : ℚ) : List ℚ :=
  (List.range w).map (fun j => np_percentile (100 * (alpha / 2)) (matCol (mat.map f) j))

/-- plot_with_hpd upper band: np.percentile(f(hazard), 100 * (1 - alpha / 2), axis=0). -/
def hpd_upper (f : List ℚ → List ℚ) (mat : List (List ℚ)) (w : ℕ) (alpha : ℚ) : List ℚ :=
  (List.range w).map (fun j => np_percentile (100 * (1 - alpha / 2)) (matCol (mat.map f) j))

/-! Basic list access helpers. -/

lemma getD_range_map {α : Type} (f : ℕ → α) (n j : ℕ) (d : α) (h : j < n) :
    ((List.range n).map f).getD j d = f j := by
  rw [List.getD_eq_getElem _ _ (by simpa using h)]
  simp

lemma getD_map {α β : Type} (f : α → β) (l : List α) (j : ℕ) (d : β) (d₀ : α)
    (h : j < l.length) : (l.map f).getD j d = f (l.getD j d₀) := by
  rw [List.getD_eq_getElem _ _ (by simpa using h), List.getD_eq_getElem _ _ h]
  simp

lemma getD_mem {α : Type} (l : List α) (j : ℕ) (d : α) (h : j < l.length) :
    l.getD j d ∈ l := by
  rw [List.getD_eq_getElem _ _ h]
  exact List.getElem_mem h

lemma sum_take_succ_getD (l : List ℚ) (i : ℕ) (h : i < l.length) :
    (l.take (i + 1)).sum = (l.take i).sum + l.getD i 0 := by
  rw [List.sum_take_succ _ _ h, List.getD_eq_getElem _ _ h]

/-! Structure of the cumulative sum. -/

lemma cumsum_length (l : List ℚ) : (cumsum l).length = l.length := by
  induction l with
  | nil => rfl
  | cons x xs ih => simp [cumsum, ih]

lemma cumsum_getD (l : List ℚ) (i : ℕ) (h : i < l.length) :
    (cumsum l).getD i 0 = (l.take (i + 1)).sum := by
  induction l generalizing i with
  | nil => simp at h
  | cons x xs ih =>
    cases i with
    | zero => simp [cumsum]
    | succ i =>
      have hx : i < xs.length := by simpa using h
      have hc : i < (cumsum xs).length := by rw [cumsum_length]; exact hx
      calc (cumsum (x :: xs)).getD (i + 1) 0
          = ((cumsum xs).map (fun y => x + y)).getD i 0 := by simp [cumsum]
        _ = x + (cumsum xs).getD i 0 := getD_map _ _ _ _ 0 hc
        _ = x + (xs.take (i + 1)).sum := by rw [ih i hx]
        _ = ((x :: xs).take (i + 1 + 1)).sum := by simp

lemma sum_take_nonneg (l : List ℚ) (hl : ∀ x ∈ l, 0 ≤ x) (k : ℕ) :
    0 ≤ (l.take k).sum :=
  List.sum_nonneg (fun x hx => hl x (List.mem_of_mem_take hx))

lemma sum_take_le_pointwise (l₁ l₂ : List ℚ) (k : ℕ) (h₁ : k ≤ l₁.length)
    (h₂ : k ≤ l₂.length) (hle : ∀ j, j < k → l₁.getD j 0 ≤ l₂.getD j 0) :
    (l₁.take k).sum ≤ (l₂.take k).sum := by
  induction k with
  | zero => simp
  | succ k ih =>
    rw [sum_take_succ_getD _ _ (by omega), sum_take_succ_getD _ _ (by omega)]
    have hk := ih (by omega) (by omega) (fun j hj => hle j (by omega))
    exact add_le_add hk (hle k (by omega))

lemma cum_hazard_length (h : List ℚ) : (cum_hazard h).length = h.length := by
  rw [cum_hazard, cumsum_length, List.length_map]

lemma survival_length (h : List ℚ) : (survival h).length = h.length := by
  rw [survival, List.length_map, cum_hazard_length]

lemma cum_hazard_getD (h : List ℚ) (i : ℕ) (hi : i < h.length) :
    (cum_hazard h).getD i 0 = ((h.map (fun x => interval_length * x)).take (i + 1)).sum := by
  rw [cum_hazard, cumsum_getD _ _ (by simpa using hi)]

lemma cum_hazard_nonneg (h : List ℚ) (hnn : ∀ x ∈ h, 0 ≤ x) (i : ℕ) (hi : i < h.length) :
    0 ≤ (cum_hazard h).getD i 0 := by
  rw [cum_hazard_getD _ _ hi]
  refine sum_take_nonneg _ (fun x hx => ?_) _
  obtain ⟨y, hy, rfl⟩ := List.mem_map.mp hx
  have : (0 : ℚ) ≤ y := hnn y hy
  have h3 : (0 : ℚ) ≤ interval_length := by norm_num [interval_length]
  exact mul_nonneg h3 this

lemma cum_hazard_step_mono (h : List ℚ) (hnn : ∀ x ∈ h, 0 ≤ x) (i : ℕ)
    (hi : i + 1 < h.length) :
    (cum_hazard h).getD i 0 ≤ (cum_hazard h).getD (i + 1) 0 := by
  rw [cum_hazard_getD _ _ (by omega), cum_hazard_getD _ _ hi]
  rw [sum_take_succ_getD _ (i + 1) (by simpa using hi)]
  have hmem : (h.map (fun x => interval_length * x)).getD (i + 1) 0
      ∈ h.map (fun x => interval_length * x) := getD_mem _ _ _ (by simpa using hi)
  obtain ⟨y, hy, hEq⟩ := List.mem_map.mp hmem
  have : (0 : ℚ) ≤ (h.map (fun x => interval_length * x)).getD (i + 1) 0 := by
    rw [← hEq]
    exact mul_nonneg (by norm_num [interval_length]) (hnn y hy)
  linarith

lemma survival_getD (h : List ℚ) (i : ℕ) (hi : i < h.length) :
    (survival h).getD i 0 = Real.exp (-((cum_hazard h).getD i 0 : ℝ)) := by
  rw [survival]
  exact getD_map _ _ _ _ 0 (by rw [cum_hazard_length]; exact hi)

/-- C4: for a non-negative hazard sequence, the entries of cum_hazard
(the running cumulative sum of the hazard scaled by the interval length)
are monotonically non-decreasing. -/
theorem C4_cum_hazard_monotone (h : List ℚ) (hnn : ∀ x ∈ h, 0 ≤ x) (i : ℕ)
    (hi : i + 1 < (cum_hazard h).length) :
    (cum_hazard h).getD i 0 ≤ (cum_hazard h).getD (i + 1) 0 :=
  cum_hazard_step_mono h hnn i (by rwa [cum_hazard_length] at hi)

/-- C4 witness: concrete evaluation of the monotonicity of cum_hazard on the
hazard sequence [1, 2] at the first step. -/
theorem C4_witness :
    (∀ x ∈ ([1, 2] : List ℚ), 0 ≤ x) ∧ 0 + 1 < (cum_hazard [1, 2]).length ∧
      (cum_hazard [1, 2]).getD 0 0 ≤ (cum_hazard [1, 2]).getD 1 0 :=
  ⟨by norm_num, by rw [cum_hazard_length]; norm_num,
    C4_cum_hazard_monotone [1, 2] (by norm_num) 0 (by rw [cum_hazard_length]; norm_num)⟩

/-- C3: for a non-negative hazard sequence, the survival curve is
non-increasing and every entry lies in the half-open interval (0, 1]. -/
theorem C3_survival_monotone_bounded (h : List ℚ) (hnn : ∀ x ∈ h, 0 ≤ x) :
    (∀ i, i + 1 < (survival h).length →
      (survival h).getD (i + 1) 0 ≤ (survival h).getD i 0) ∧
    (∀ y ∈ survival h, 0 < y ∧ y ≤ 1) := by
  constructor
  · intro i hi
    have hi' : i + 1 < h.length := by rwa [survival_length] at hi
    rw [survival_getD _ _ hi', survival_getD _ _ (by omega)]
    have hc := cum_hazard_step_mono h hnn i hi'
    have hc' : ((cum_hazard h).getD i 0 : ℝ) ≤ ((cum_hazard h).getD (i + 1) 0 : ℝ) := by
      exact_mod_cast hc
    exact Real.exp_le_exp.mpr (by linarith)
  · intro y hy
    obtain ⟨c, hc, rfl⟩ := List.mem_map.mp hy
    obtain ⟨j, hj, hcj⟩ := List.mem_iff_getElem.mp hc
    have hj' : j < h.length := by rwa [cum_hazard_length] at hj
    have hcd : (cum_hazard h).getD j 0 = c := by rw [List.getD_eq_getElem _ _ hj, hcj]
    have hcnn : (0 : ℚ) ≤ c := hcd ▸ cum_hazard_nonneg h hnn j hj'
    refine ⟨Real.exp_pos _, ?_⟩
    have : (-(c : ℝ)) ≤ 0 := by
      have : (0 : ℝ) ≤ (c : ℝ) := by exact_mod_cast hcnn
      linarith
    calc Real.exp (-(c : ℝ)) ≤ Real.exp 0 := Real.exp_le_exp.mpr this
      _ = 1 := Real.exp_zero

/-- C3 witness: concrete instantiation on the hazard sequence [1, 2]. -/
theorem C3_witness :
    (∀ x ∈ ([1, 2] : List ℚ), 0 ≤ x) ∧
    ((∀ i, i + 1 < (survival [1, 2]).length →
      (survival [1, 2]).getD (i + 1) 0 ≤ (survival [1, 2]).getD i 0) ∧
    (∀ y ∈ survival ([1, 2] : List ℚ), 0 < y ∧ y ≤ 1)) :=
  ⟨by norm_num, C3_survival_monotone_bounded [1, 2] (by norm_num)⟩

/-- C5: the survival curve equals the exponential of the negated cumulative
hazard, entrywise. -/
theorem C5_survival_eq_exp_neg_cum_hazard (h : List ℚ) (i : ℕ) (hi : i < h.length) :
    (survival h).getD i 0 = Real.exp (-((cum_hazard h).getD i 0 : ℝ)) :=
  survival_getD h i hi

/-- C5 witness: concrete instantiation on the hazard sequence [1] at index 0. -/
theorem C5_witness :
    0 < ([1] : List ℚ).length ∧
      (survival [1]).getD 0 0 = Real.exp (-((cum_hazard [1]).getD 0 0 : ℝ)) :=
  ⟨by norm_num, C5_survival_eq_exp_neg_cum_hazard [1] 0 (by norm_num)⟩

/-- C10: the survival transform is antitone in the hazard: for non-negative
hazard sequences of equal length with h₁ ≤ h₂ pointwise, the survival curve of
h₂ lies pointwise below the survival curve of h₁. -/
theorem C10_survival_antitone (h₁ h₂ : List ℚ) (hlen : h₁.length = h₂.length)
    (hnn₁ : ∀ x ∈ h₁, 0 ≤ x) (hnn₂ : ∀ x ∈ h₂, 0 ≤ x)
    (hle : ∀ j, j < h₁.length → h₁.getD j 0 ≤ h₂.getD j 0)
    (i : ℕ) (hi : i < h₁.length) :
    (survival h₂).getD i 0 ≤ (survival h₁).getD i 0 := by
  rw [survival_getD _ _ hi, survival_getD _ _ (hlen ▸ hi)]
  have hcum : (cum_hazard h₁).getD i 0 ≤ (cum_hazard h₂).getD i 0 := by
    rw [cum_hazard_getD _ _ hi, cum_hazard_getD _ _ (hlen ▸ hi)]
    refine sum_take_le_pointwise _ _ (i + 1) (by simpa using hi) (by simp; omega) ?_
    intro j hj
    have hj₁ : j < h₁.length := by omega
    rw [getD_map _ _ _ _ 0 hj₁, getD_map _ _ _ _ 0 (hlen ▸ hj₁)]
    have := hle j hj₁
    have h3 : (0 : ℚ) ≤ interval_length := by norm_num [interval_length]
    exact mul_le_mul_of_nonneg_left this h3
  have hcast : ((cum_hazard h₁).getD i 0 : ℝ) ≤ ((cum_hazard h₂).getD i 0 : ℝ) := by
    exact_mod_cast hcum
  exact Real.exp_le_exp.mpr (by linarith)

/-- C10 witness: concrete instantiation with h₁ = [1] and h₂ = [2] at index 0. -/
theorem C10_witness :
    ([1] : List ℚ).length = ([2] : List ℚ).length ∧
    (∀ x ∈ ([1] : List ℚ), 0 ≤ x) ∧ (∀ x ∈ ([2] : List ℚ), 0 ≤ x) ∧
    (∀ j, j < ([1] : List ℚ).length → ([1] : List ℚ).getD j 0 ≤ ([2] : List ℚ).getD j 0) ∧
    0 < ([1] : List ℚ).length ∧
    (survival [2]).getD 0 0 ≤ (survival [1]).getD 0 0 := by
  have hle : ∀ j, j < ([1] : List ℚ).length →
      ([1] : List ℚ).getD j 0 ≤ ([2] : List ℚ).getD j 0 := by
    intro j hj
    have hj0 : j = 0 := by simpa using hj
    subst hj0
    norm_num [List.getD]
  exact ⟨by norm_num, by norm_num, by norm_num, hle, by norm_num,
    C10_survival_antitone [1] [2] (by norm_num) (by norm_num) (by norm_num) hle 0 (by norm_num)⟩

/-! Facts about the interval partition and the period index. -/

lemma interval_length_pos : (0 : ℚ) < interval_length := by norm_num [interval_length]

lemma maxTime_nonneg (d : List Subject) : 0 ≤ maxTime d := by
  induction d with
  | nil => simp [maxTime]
  | cons a l ih =>
    have : maxTime (a :: l) = max a.time (maxTime l) := by simp [maxTime]
    rw [this]
    exact le_trans ih (le_max_right _ _)

lemma time_le_maxTime (d : List Subject) (s : Subject) (hs : s ∈ d) :
    s.time ≤ maxTime d := by
  induction d with
  | nil => simp at hs
  | cons a l ih =>
    have hc : maxTime (a :: l) = max a.time (maxTime l) := by simp [maxTime]
    rw [hc]
    rcases List.mem_cons.mp hs with rfl | hmem
    · exact le_max_left _ _
    · exact le_trans (ih hmem) (le_max_right _ _)

lemma ceil_ge_two (m : ℚ) (hm : 0 < m) :
    2 ≤ ⌈(m + interval_length + 1) / interval_length⌉ := by
  have : (1 : ℚ) < (m + interval_length + 1) / interval_length := by
    rw [lt_div_iff interval_length_pos]
    norm_num [interval_length]
    linarith
  have := Int.lt_ceil.mpr (by exact_mod_cast this : ((1 : ℤ) : ℚ) < _)
  omega

lemma n_bounds_cast (m : ℚ) (hm : 0 < m) :
    (n_bounds m : ℤ) = ⌈(m + interval_length + 1) / interval_length⌉ := by
  rw [n_bounds]
  exact Int.toNat_of_nonneg (by have := ceil_ge_two m hm; omega)

lemma two_le_n_bounds (m : ℚ) (hm : 0 < m) : 2 ≤ n_bounds m := by
  have h1 := n_bounds_cast m hm
  have h2 := ceil_ge_two m hm
  omega

lemma n_intervals_cast (m : ℚ) (hm : 0 < m) :
    (n_intervals m : ℤ) = ⌈(m + interval_length + 1) / interval_length⌉ - 1 := by
  have h1 := n_bounds_cast m hm
  have h2 := two_le_n_bounds m hm
  rw [n_intervals]
  omega

lemma interval_bounds_length (m : ℚ) : (interval_bounds m).length = n_bounds m := by
  simp [interval_bounds]

lemma interval_bounds_getD (m : ℚ) (j : ℕ) (hj : j < n_bounds m) :
    (interval_bounds m).getD j 0 = interval_length * (j : ℚ) :=
  getD_range_map _ _ _ _ hj

lemma last_period_nonneg (t : ℚ) (ht : 1/100 ≤ t) : 0 ≤ last_period t := by
  rw [last_period]
  refine Int.floor_nonneg.mpr (div_nonneg (by linarith) (le_of_lt interval_length_pos))

lemma last_period_lt (m t : ℚ) (ht : 1/100 ≤ t) (htm : t ≤ m) :
    last_period t < (n_intervals m : ℤ) := by
  have hm : 0 < m := lt_of_lt_of_le (by norm_num) (le_trans ht htm)
  have h3 : (0 : ℚ) < interval_length := interval_length_pos
  have hil : interval_length = 3 := rfl
  have hfl : ((last_period t : ℤ) : ℚ) * interval_length ≤ t - 1/100 := by
    have hf : ((last_period t : ℤ) : ℚ) ≤ (t - 1/100) / interval_length := Int.floor_le _
    rwa [le_div_iff₀ h3] at hf
  have hcl : m + interval_length + 1
      ≤ ((⌈(m + interval_length + 1) / interval_length⌉ : ℤ) : ℚ) * interval_length := by
    rw [← div_le_iff₀ h3]
    exact Int.le_ceil _
  have hcast := n_intervals_cast m hm
  have hq : ((last_period t : ℤ) : ℚ) < ((n_intervals m : ℤ) : ℚ) := by
    rw [hcast]
    push_cast
    rw [hil] at hfl hcl ⊢
    linarith
  exact_mod_cast hq

lemma npIndex_of_nonneg (k : ℤ) (n : ℕ) (hk : 0 ≤ k) : npIndex k n = k.toNat := by
  rw [npIndex, if_neg (not_lt.mpr hk)]

/-- C7: for a dataset with positive maximum time, interval_bounds is the
arithmetic progression 0, 3, 6, ... (fixed-width contiguous bins), strictly
increasing, and its last bound strictly exceeds the maximum observed time. -/
theorem C7_interval_bounds_partition (d : List Subject) (hm : 0 < maxTime d) :
    (∀ i, i < n_bounds (maxTime d) →
        (interval_bounds (maxTime d)).getD i 0 = interval_length * (i : ℚ)) ∧
    (∀ i j, i < j → j < n_bounds (maxTime d) →
        (interval_bounds (maxTime d)).getD i 0 < (interval_bounds (maxTime d)).getD j 0) ∧
    (interval_bounds (maxTime d)).getD 0 0 = 0 ∧
    maxTime d < (interval_bounds (maxTime d)).getD (n_bounds (maxTime d) - 1) 0 := by
  set m := maxTime d with hmdef
  refine ⟨fun i hi => interval_bounds_getD m i hi, ?_, ?_, ?_⟩
  · intro i j hij hj
    rw [interval_bounds_getD m i (by omega), interval_bounds_getD m j hj]
    have : (i : ℚ) < (j : ℚ) := by exact_mod_cast hij
    exact mul_lt_mul_of_pos_left this interval_length_pos
  · rw [interval_bounds_getD m 0 (by have := two_le_n_bounds m hm; omega)]
    simp
  · have h2 := two_le_n_bounds m hm
    rw [interval_bounds_getD m (n_bounds m - 1) (by omega)]
    have hcl : (m + interval_length + 1) / interval_length
        ≤ ((⌈(m + interval_length + 1) / interval_length⌉ : ℤ) : ℚ) := Int.le_ceil _
    have hcast := n_bounds_cast m hm
    have hnb : ((n_bounds m - 1 : ℕ) : ℚ) = ((n_bounds m : ℤ) : ℚ) - 1 := by
      push_cast [Nat.cast_sub (by omega : 1 ≤ n_bounds m)]
      norm_num
    rw [hnb, hcast]
    have h3 : (0 : ℚ) < interval_length := interval_length_pos
    rw [div_le_iff h3] at hcl
    nlinarith [h3]

/-- C7 witness: concrete instantiation on a one-subject dataset with time 5. -/
theorem C7_witness :
    0 < maxTime [⟨5, true, false⟩] ∧
    ((∀ i, i < n_bounds (maxTime [⟨5, true, false⟩]) →
        (interval_bounds (maxTime [⟨5, true, false⟩])).getD i 0
          = interval_length * (i : ℚ)) ∧
    (∀ i j, i < j → j < n_bounds (maxTime [⟨5, true, false⟩]) →
        (interval_bounds (maxTime [⟨5, true, false⟩])).getD i 0
          < (interval_bounds (maxTime [⟨5, true, false⟩])).getD j 0) ∧
    (interval_bounds (maxTime [⟨5, true, false⟩])).getD 0 0 = 0 ∧
    maxTime [⟨5, true, false⟩]
      < (interval_bounds (maxTime [⟨5, true, false⟩])).getD
          (n_bounds (maxTime [⟨5, true, false⟩]) - 1) 0) :=
  ⟨by norm_num [maxTime],
    C7_interval_bounds_partition [⟨5, true, false⟩] (by norm_num [maxTime])⟩

/-- C8 counterexample: a dataset whose only observed time is 1/200 has every
time positive and no larger than the maximum, yet the period index is
negative, refuting the claimed in-bounds property for all positive times. -/
theorem C8_counterexample :
    0 < ((1 : ℚ)/200) ∧ (1 : ℚ)/200 ≤ maxTime [⟨1/200, true, false⟩] ∧
      last_period (1/200) < 0 := by
  refine ⟨by norm_num, ?_, ?_⟩
  · norm_num [maxTime]
  · rw [last_period]
    by_contra hge
    push_neg at hge
    have h0 := Int.floor_nonneg.mp hge
    rw [interval_length] at h0
    norm_num at h0

/-- C8 amended: for a subject of the dataset whose time is at least 0.01, the
period index last_period is non-negative and strictly below n_intervals, so
the indexed assignments into the death and exposure matrices are in bounds. -/
theorem C8_last_period_in_bounds (d : List Subject) (s : Subject) (hs : s ∈ d)
    (ht : 1/100 ≤ s.time) :
    0 ≤ last_period s.time ∧ last_period s.time < (n_intervals (maxTime d) : ℤ) :=
  ⟨last_period_nonneg _ ht, last_period_lt _ _ ht (time_le_maxTime d s hs)⟩

/-- C8 witness: concrete instantiation on a one-subject dataset with time 5. -/
theorem C8_witness :
    (⟨5, true, false⟩ : Subject) ∈ [(⟨5, true, false⟩ : Subject)] ∧
    (1 : ℚ)/100 ≤ (5 : ℚ) ∧
    (0 ≤ last_period (Subject.mk 5 true false).time ∧
      last_period (Subject.mk 5 true false).time
        < (n_intervals (maxTime [⟨5, true, false⟩]) : ℤ)) :=
  ⟨by simp, by norm_num,
    C8_last_period_in_bounds [⟨5, true, false⟩] ⟨5, true, false⟩ (by simp) (by norm_num)⟩

/-! Death and exposure rows. -/

lemma countP_indicator (n k : ℕ) (hk : k < n) (a : ℚ) (p : ℚ → Bool) (hp0 : p 0 = false) :
    ((List.range n).map (fun j => if j = k then a else 0)).countP p
      = if p a then 1 else 0 := by
  induction n with
  | zero => exact absurd hk (Nat.not_lt_zero k)
  | succ n ih =>
    rw [List.range_succ, List.map_append, List.countP_append]
    by_cases hkn : k = n
    · subst hkn
      have hz : ((List.range k).map (fun j => if j = k then a else 0)).countP p = 0 := by
        rw [List.countP_eq_zero]
        intro x hx
        obtain ⟨j, hj, rfl⟩ := List.mem_map.mp hx
        rw [if_neg (by have := List.mem_range.mp hj; omega)]
        simp [hp0]
      rw [hz]
      simp [List.countP_cons, hp0]
    · have hkn' : k < n := by omega
      rw [ih hkn']
      have hlast : ((List.map (fun j => if j = k then a else 0) [n])).countP p = 0 := by
        rw [List.countP_eq_zero]
        intro x hx
        simp at hx
        rw [if_neg (by omega)] at hx
        subst hx
        simp [hp0]
      rw [hlast]
      omega

lemma map_const_eq_replicate (l : List ℕ) (c : ℚ) :
    l.map (fun _ : ℕ => c) = List.replicate l.length c := by
  induction l with
  | nil => rfl
  | cons x xs ih => simp [ih, List.replicate_succ]

lemma sum_range_indicator (n k : ℕ) (hk : k < n) (a c : ℚ) :
    ((List.range n).map (fun j => if j = k then a else if j < k then c else 0)).sum
      = c * k + a := by
  induction n with
  | zero => exact absurd hk (Nat.not_lt_zero k)
  | succ n ih =>
    rw [List.range_succ, List.map_append, List.sum_append]
    by_cases hkn : k = n
    · subst hkn
      have hconst : (List.range k).map (fun j => if j = k then a else if j < k then c else 0)
          = (List.range k).map (fun _ : ℕ => c) := by
        refine List.map_congr_left ?_
        intro j hj
        have hjk := List.mem_range.mp hj
        rw [if_neg (by omega), if_pos hjk]
      have hrep : (List.range k).map (fun _ : ℕ => c) = List.replicate k c := by
        have := map_const_eq_replicate (List.range k) c
        rwa [List.length_range] at this
      rw [hconst, hrep, List.sum_replicate]
      simp [nsmul_eq_mul]
      ring
    · have hkn' : k < n := by omega
      rw [ih hkn']
      have hlast : (List.map (fun j => if j = k then a else if j < k then c else 0) [n]).sum
          = 0 := by
        simp only [List.map_cons, List.map_nil, List.sum_cons, List.sum_nil]
        rw [if_neg (by omega), if_neg (by omega)]
        ring
      rw [hlast]
      ring

/-- C2 counterexample: in a dataset with one censored subject (event = 0,
time = 5) the subject's death-matrix row holds no entry equal to 1, so the
row is not one-hot. -/
theorem C2_counterexample :
    (Subject.mk 5 false false).event = false ∧
    (death_row (n_intervals (maxTime [⟨5, false, false⟩])) ⟨5, false, false⟩).countP
      (fun x => x == 1) ≠ 1 := by
  refine ⟨rfl, ?_⟩
  have hmax : maxTime [⟨5, false, false⟩] = 5 := by simp [maxTime]
  have hnb : n_bounds 5 = 3 := by
    rw [n_bounds]
    have h : ⌈((5:ℚ) + interval_length + 1)/interval_length⌉ = 3 := by
      rw [Int.ceil_eq_iff]
      constructor <;> norm_num [interval_length]
    rw [h]
    rfl
  have hlp : last_period 5 = 1 := by
    rw [last_period, Int.floor_eq_iff]
    constructor <;> norm_num [interval_length]
  rw [hmax]
  norm_num [death_row, n_intervals, hnb, hlp, npIndex, List.range_succ, List.countP_append,
    List.countP_cons]

/-- C2 amended: for every subject whose time is at least 0.01, the subject's
death-matrix row holds exactly one entry equal to 1 when the death was
observed and none when censored, and every entry is 0 or 1 (at most one-hot,
with the hot entry present exactly when event = 1). -/
theorem C2_death_row_indicator (d : List Subject) (s : Subject) (hs : s ∈ d)
    (ht : 1/100 ≤ s.time) :
    (death_row (n_intervals (maxTime d)) s).countP (fun x => x == 1)
        = (if s.event then 1 else 0) ∧
    ∀ x ∈ death_row (n_intervals (maxTime d)) s, x = 0 ∨ x = 1 := by
  have htm : s.time ≤ maxTime d := time_le_maxTime d s hs
  have hm : 0 < maxTime d := lt_of_lt_of_le (by norm_num) (le_trans ht htm)
  have hlp0 : 0 ≤ last_period s.time := last_period_nonneg _ ht
  have hlpn : last_period s.time < (n_intervals (maxTime d) : ℤ) :=
    last_period_lt _ _ ht htm
  have hkn : npIndex (last_period s.time) (n_intervals (maxTime d))
      < n_intervals (maxTime d) := by
    rw [npIndex_of_nonneg _ _ hlp0]
    omega
  constructor
  · rw [death_row, countP_indicator _ _ hkn _ _ (by norm_num)]
    by_cases he : s.event <;> simp [he]
  · intro x hx
    rw [death_row] at hx
    obtain ⟨j, hj, rfl⟩ := List.mem_map.mp hx
    by_cases hjk : j = npIndex (last_period s.time) (n_intervals (maxTime d))
    · by_cases he : s.event <;> simp [hjk, he]
    · simp [hjk]

/-- C2 witness: concrete instantiation on a one-subject dataset in which the
death was observed at time 5. -/
theorem C2_witness :
    (⟨5, true, false⟩ : Subject) ∈ [(⟨5, true, false⟩ : Subject)] ∧
    (1 : ℚ)/100 ≤ (Subject.mk 5 true false).time ∧
    ((death_row (n_intervals (maxTime [⟨5, true, false⟩])) ⟨5, true, false⟩).countP
        (fun x => x == 1) = (if (Subject.mk 5 true false).event then 1 else 0) ∧
      ∀ x ∈ death_row (n_intervals (maxTime [⟨5, true, false⟩])) ⟨5, true, false⟩,
        x = 0 ∨ x = 1) :=
  ⟨by simp, by norm_num,
    C2_death_row_indicator [⟨5, true, false⟩] ⟨5, true, false⟩ (by simp) (by norm_num)⟩

/-- C6 counterexample: a dataset whose only subject has the positive time
1/200 produces a negative exposure entry, refuting non-negativity of the
exposure matrix for all datasets with positive times. -/
theorem C6_counterexample :
    0 < ((1 : ℚ)/200) ∧
    (exposure_row (maxTime [⟨1/200, true, false⟩]) (1/200)).getD 0 0 < 0 := by
  refine ⟨by norm_num, ?_⟩
  have hmax : maxTime [⟨1/200, true, false⟩] = 1/200 := by simp [maxTime]
  have hnb : n_bounds (1/200) = 2 := by
    rw [n_bounds]
    have h : ⌈((1:ℚ)/200 + interval_length + 1)/interval_length⌉ = 2 := by
      rw [Int.ceil_eq_iff]
      constructor <;> norm_num [interval_length]
    rw [h]
    rfl
  have hlp : last_period (1/200) = -1 := by
    rw [last_period, Int.floor_eq_iff]
    constructor <;> norm_num [interval_length]
  rw [hmax]
  norm_num [exposure_row, n_intervals, hnb, hlp, npIndex, interval_bounds,
    interval_length, List.range_succ, List.getD]

/-- C6 amended: for every subject of the dataset whose time is at least 0.01,
every entry of the subject's exposure row is non-negative. -/
theorem C6_exposure_nonneg (d : List Subject) (s : Subject) (hs : s ∈ d)
    (ht : 1/100 ≤ s.time) :
    ∀ x ∈ exposure_row (maxTime d) s.time, 0 ≤ x := by
  intro x hx
  have htm : s.time ≤ maxTime d := time_le_maxTime d s hs
  have hm : 0 < maxTime d := lt_of_lt_of_le (by norm_num) (le_trans ht htm)
  have hlp0 : 0 ≤ last_period s.time := last_period_nonneg _ ht
  have hlpn : last_period s.time < (n_intervals (maxTime d) : ℤ) :=
    last_period_lt _ _ ht htm
  simp only [exposure_row] at hx
  obtain ⟨j, hj, rfl⟩ := List.mem_map.mp hx
  have hjn : j < n_intervals (maxTime d) := List.mem_range.mp hj
  by_cases hcase : j = npIndex (last_period s.time) (n_intervals (maxTime d))
  · rw [if_pos hcase]
    have hknb : (last_period s.time).toNat < n_bounds (maxTime d) := by
      have h2 := two_le_n_bounds _ hm
      have h3 : n_intervals (maxTime d) = n_bounds (maxTime d) - 1 := rfl
      omega
    rw [npIndex_of_nonneg _ _ hlp0, interval_bounds_getD _ _ hknb]
    have hcast : (((last_period s.time).toNat : ℕ) : ℚ) = ((last_period s.time : ℤ) : ℚ) := by
      exact_mod_cast Int.toNat_of_nonneg hlp0
    rw [hcast]
    have hfl : ((last_period s.time : ℤ) : ℚ) * interval_length ≤ s.time - 1/100 := by
      have hf : ((last_period s.time : ℤ) : ℚ) ≤ (s.time - 1/100) / interval_length := by
        rw [last_period]
        exact Int.floor_le _
      rwa [le_div_iff₀ interval_length_pos] at hf
    have hil : interval_length = 3 := rfl
    rw [hil] at hfl ⊢
    linarith
  · rw [if_neg hcase]
    by_cases hb : (interval_bounds (maxTime d)).getD j 0 ≤ s.time
    · rw [if_pos hb]
      exact le_of_lt interval_length_pos
    · rw [if_neg hb]

/-- C6 witness: concrete instantiation on a one-subject dataset with time 5. -/
theorem C6_witness :
    (⟨5, true, false⟩ : Subject) ∈ [(⟨5, true, false⟩ : Subject)] ∧
    (1 : ℚ)/100 ≤ (Subject.mk 5 true false).time ∧
    ∀ x ∈ exposure_row (maxTime [⟨5, true, false⟩]) (Subject.mk 5 true false).time, 0 ≤ x :=
  ⟨by simp, by norm_num,
    C6_exposure_nonneg [⟨5, true, false⟩] ⟨5, true, false⟩ (by simp) (by norm_num)⟩

/-- C9 counterexample: the subject time 3.005 is positive and not an exact
multiple of the interval length, yet its exposure row sums to 3.005 + 3
rather than to the observed time, because the 0.01 shift in last_period puts
the final partial interval one bin too early. -/
theorem C9_counterexample :
    0 < ((601 : ℚ)/200) ∧
    (601 : ℚ)/200 ≠ interval_length * ((⌊((601 : ℚ)/200) / interval_length⌋ : ℤ) : ℚ) ∧
    (exposure_row (maxTime [⟨601/200, true, false⟩]) (601/200)).sum ≠ 601/200 := by
  have hfloor : ⌊((601 : ℚ)/200) / interval_length⌋ = 1 := by
    rw [Int.floor_eq_iff]
    constructor <;> norm_num [interval_length]
  refine ⟨by norm_num, ?_, ?_⟩
  · rw [hfloor]
    norm_num [interval_length]
  · have hmax : maxTime [⟨601/200, true, false⟩] = 601/200 := by
      simp [maxTime]
      norm_num
    have hnb : n_bounds (601/200) = 3 := by
      rw [n_bounds]
      have h : ⌈((601:ℚ)/200 + interval_length + 1)/interval_length⌉ = 3 := by
        rw [Int.ceil_eq_iff]
        constructor <;> norm_num [interval_length]
      rw [h]
      rfl
    have hlp : last_period (601/200) = 0 := by
      rw [last_period, Int.floor_eq_iff]
      constructor <;> norm_num [interval_length]
    rw [hmax]
    norm_num [exposure_row, n_intervals, hnb, hlp, npIndex, interval_bounds,
      interval_length, List.range_succ]

/-- C9 amended: for every subject of the dataset whose time exceeds the
preceding multiple of the interval length by at least 0.01, the subject's
exposure row sums exactly to the observed time (time at risk is conserved). -/
theorem C9_exposure_row_sum (d : List Subject) (s : Subject) (hs : s ∈ d)
    (h0 : 0 < s.time)
    (hr : 1/100 ≤ s.time - interval_length * ((⌊s.time / interval_length⌋ : ℤ) : ℚ)) :
    (exposure_row (maxTime d) s.time).sum = s.time := by
  have hil : interval_length = 3 := rfl
  have hk0 : 0 ≤ ⌊s.time / interval_length⌋ :=
    Int.floor_nonneg.mpr (div_nonneg (le_of_lt h0) (le_of_lt interval_length_pos))
  have hfl : ((⌊s.time / interval_length⌋ : ℤ) : ℚ) * interval_length ≤ s.time := by
    have h := Int.floor_le (s.time / interval_length)
    rwa [le_div_iff₀ interval_length_pos] at h
  have hfu : s.time < (((⌊s.time / interval_length⌋ : ℤ) : ℚ) + 1) * interval_length := by
    have h := Int.lt_floor_add_one (s.time / interval_length)
    rwa [div_lt_iff₀ interval_length_pos] at h
  have hlp : last_period s.time = ⌊s.time / interval_length⌋ := by
    rw [last_period, Int.floor_eq_iff]
    constructor
    · rw [le_div_iff₀ interval_length_pos]
      linarith
    · rw [div_lt_iff₀ interval_length_pos]
      linarith
  have ht100 : 1/100 ≤ s.time := by
    have : (0:ℚ) ≤ ((⌊s.time / interval_length⌋ : ℤ) : ℚ) := by exact_mod_cast hk0
    nlinarith [interval_length_pos]
  have htm : s.time ≤ maxTime d := time_le_maxTime d s hs
  have hm : 0 < maxTime d := lt_of_lt_of_le (by norm_num) (le_trans ht100 htm)
  have hlpn : last_period s.time < (n_intervals (maxTime d) : ℤ) :=
    last_period_lt _ _ ht100 htm
  have hkn : (⌊s.time / interval_length⌋).toNat < n_intervals (maxTime d) := by omega
  have hknb : (⌊s.time / interval_length⌋).toNat < n_bounds (maxTime d) := by
    have h2 := two_le_n_bounds _ hm
    have h3 : n_intervals (maxTime d) = n_bounds (maxTime d) - 1 := rfl
    omega
  have hcast : (((⌊s.time / interval_length⌋).toNat : ℕ) : ℚ)
      = ((⌊s.time / interval_length⌋ : ℤ) : ℚ) := by
    exact_mod_cast Int.toNat_of_nonneg hk0
  have hnpi : npIndex (last_period s.time) (n_intervals (maxTime d))
      = (⌊s.time / interval_length⌋).toNat := by
    rw [hlp, npIndex_of_nonneg _ _ hk0]
  have hnpib : npIndex (last_period s.time) (n_bounds (maxTime d))
      = (⌊s.time / interval_length⌋).toNat := by
    rw [hlp, npIndex_of_nonneg _ _ hk0]
  simp only [exposure_row, hnpi, hnpib]
  rw [interval_bounds_getD _ _ hknb]
  have hcongr : (List.range (n_intervals (maxTime d))).map
        (fun j => if j = (⌊s.time / interval_length⌋).toNat then
            s.time - interval_length * (((⌊s.time / interval_length⌋).toNat : ℕ) : ℚ)
          else if (interval_bounds (maxTime d)).getD j 0 ≤ s.time then interval_length else 0)
      = (List.range (n_intervals (maxTime d))).map
        (fun j => if j = (⌊s.time / interval_length⌋).toNat then
            s.time - interval_length * (((⌊s.time / interval_length⌋).toNat : ℕ) : ℚ)
          else if j < (⌊s.time / interval_length⌋).toNat then interval_length else 0) := by
    refine List.map_congr_left ?_
    intro j hj
    have hjn : j < n_intervals (maxTime d) := List.mem_range.mp hj
    by_cases hjk : j = (⌊s.time / interval_length⌋).toNat
    · rw [if_pos hjk, if_pos hjk]
    · rw [if_neg hjk, if_neg hjk]
      have hjb : j < n_bounds (maxTime d) := by
        have h3 : n_intervals (maxTime d) = n_bounds (maxTime d) - 1 := rfl
        omega
      rw [interval_bounds_getD _ _ hjb]
      by_cases hjlt : j < (⌊s.time / interval_length⌋).toNat
      · rw [if_pos hjlt, if_pos ?_]
        have hj1 : (j : ℚ) + 1 ≤ (((⌊s.time / interval_length⌋).toNat : ℕ) : ℚ) := by
          exact_mod_cast hjlt
        rw [hcast] at hj1
        nlinarith [interval_length_pos]
      · rw [if_neg hjlt, if_neg ?_]
        have hj1 : (((⌊s.time / interval_length⌋).toNat : ℕ) : ℚ) + 1 ≤ (j : ℚ) := by
          exact_mod_cast (by omega : (⌊s.time / interval_length⌋).toNat + 1 ≤ j)
        rw [hcast] at hj1
        intro hcon
        nlinarith [interval_length_pos]
  rw [hcongr, sum_range_indicator _ _ hkn]
  rw [hcast]
  ring

/-- C9 witness: concrete instantiation on a one-subject dataset with time 4,
which exceeds the preceding multiple of 3 by 1. -/
theorem C9_witness :
    (⟨4, true, false⟩ : Subject) ∈ [(⟨4, true, false⟩ : Subject)] ∧
    0 < (Subject.mk 4 true false).time ∧
    (1 : ℚ)/100 ≤ (Subject.mk 4 true false).time
      - interval_length * ((⌊(Subject.mk 4 true false).time / interval_length⌋ : ℤ) : ℚ) ∧
    (exposure_row (maxTime [⟨4, true, false⟩]) (Subject.mk 4 true false).time).sum
      = (Subject.mk 4 true false).time :=
  ⟨by simp, by norm_num, by norm_num [interval_length],
    C9_exposure_row_sum [⟨4, true, false⟩] ⟨4, true, false⟩ (by simp) (by norm_num)
      (by norm_num [interval_length])⟩

/-! Percentile bands of plot_with_hpd. -/


lemma sorted_getD_le (s : List ℚ) (hs : s.Sorted (fun a b => a ≤ b)) (a b : ℕ)
    (hab : a ≤ b) (hb : b < s.length) : s.getD a 0 ≤ s.getD b 0 := by
  rw [List.getD_eq_getElem _ _ (by omega), List.getD_eq_getElem _ _ hb]
  rcases eq_or_lt_of_le hab with rfl | hlt
  · exact le_refl _
  · exact List.pairwise_iff_getElem.mp hs a b _ _ hlt

lemma interpAt_mono (s : List ℚ) (hs : s.Sorted (fun a b => a ≤ b)) (hne : s ≠ [])
    (p₁ p₂ : ℚ) (h0 : 0 ≤ p₁) (h12 : p₁ ≤ p₂) (h2 : p₂ ≤ (s.length : ℚ) - 1) :
    interpAt s p₁ ≤ interpAt s p₂ := by
  have hn : 1 ≤ s.length := List.length_pos.mpr hne
  have h01 : (0:ℤ) ≤ ⌊p₁⌋ := Int.floor_nonneg.mpr h0
  have h02 : (0:ℤ) ≤ ⌊p₂⌋ := Int.floor_nonneg.mpr (le_trans h0 h12)
  have hc₁ : ((⌊p₁⌋.toNat : ℕ) : ℚ) = ((⌊p₁⌋ : ℤ) : ℚ) := by
    exact_mod_cast Int.toNat_of_nonneg h01
  have hc₂ : ((⌊p₂⌋.toNat : ℕ) : ℚ) = ((⌊p₂⌋ : ℤ) : ℚ) := by
    exact_mod_cast Int.toNat_of_nonneg h02
  have hile : ⌊p₁⌋.toNat ≤ ⌊p₂⌋.toNat := by
    have := Int.floor_le_floor h12
    omega
  have hi₂n : ⌊p₂⌋.toNat ≤ s.length - 1 := by
    have hfl : ⌊p₂⌋ ≤ (s.length : ℤ) - 1 := by
      have h := Int.floor_le_floor h2
      have heq : ⌊((s.length : ℚ) - 1)⌋ = (s.length : ℤ) - 1 := by
        rw [show ((s.length : ℚ) - 1) = (((s.length : ℤ) - 1 : ℤ) : ℚ) by push_cast; ring]
        exact Int.floor_intCast _
      rw [heq] at h
      exact h
    omega
  have hf₁0 : 0 ≤ p₁ - ((⌊p₁⌋.toNat : ℕ) : ℚ) := by
    rw [hc₁]
    exact sub_nonneg.mpr (Int.floor_le p₁)
  have hf₁1 : p₁ - ((⌊p₁⌋.toNat : ℕ) : ℚ) < 1 := by
    rw [hc₁]
    have := Int.lt_floor_add_one p₁
    linarith
  have hf₂0 : 0 ≤ p₂ - ((⌊p₂⌋.toNat : ℕ) : ℚ) := by
    rw [hc₂]
    exact sub_nonneg.mpr (Int.floor_le p₂)
  simp only [interpAt]
  set i₁ := ⌊p₁⌋.toNat
  set i₂ := ⌊p₂⌋.toNat
  set L₁ := s.getD i₁ 0 with hL₁
  set H₁ := s.getD (min (i₁ + 1) (s.length - 1)) 0 with hH₁
  set L₂ := s.getD i₂ 0 with hL₂
  set H₂ := s.getD (min (i₂ + 1) (s.length - 1)) 0 with hH₂
  have hLH₁ : L₁ ≤ H₁ := by
    rw [hL₁, hH₁]
    exact sorted_getD_le s hs _ _ (by omega) (by omega)
  have hLH₂ : L₂ ≤ H₂ := by
    rw [hL₂, hH₂]
    exact sorted_getD_le s hs _ _ (by omega) (by omega)
  rcases eq_or_lt_of_le hile with heq | hlt
  · rw [← heq] at hL₂ hH₂ ⊢
    have hee : L₂ = L₁ := by rw [hL₂, hL₁]
    have hee2 : H₂ = H₁ := by rw [hH₂, hH₁]
    rw [hee, hee2]
    nlinarith
  · have hg₁ : L₁ + (p₁ - ((i₁ : ℕ) : ℚ)) * (H₁ - L₁) ≤ H₁ := by nlinarith
    have hH₁L₂ : H₁ ≤ L₂ := by
      rw [hH₁, hL₂]
      exact sorted_getD_le s hs _ _ (by omega) (by omega)
    have hg₂ : L₂ ≤ L₂ + (p₂ - ((i₂ : ℕ) : ℚ)) * (H₂ - L₂) := by nlinarith
    linarith

lemma mergeSort_length (v : List ℚ) : v.mergeSort.length = v.length :=
  (List.mergeSort_perm v _).length_eq

lemma np_percentile_mono (q₁ q₂ : ℚ) (v : List ℚ) (h0 : 0 ≤ q₁) (h12 : q₁ ≤ q₂)
    (h2 : q₂ ≤ 100) : np_percentile q₁ v ≤ np_percentile q₂ v := by
  cases v with
  | nil => simp [np_percentile]
  | cons x xs =>
    have hlen : 1 ≤ (x :: xs).length := by simp
    have hq : (0:ℚ) ≤ ((x :: xs).length : ℚ) - 1 := by
      have : (1:ℚ) ≤ ((x :: xs).length : ℚ) := by exact_mod_cast hlen
      linarith
    simp only [np_percentile]
    apply interpAt_mono
    · exact List.sorted_mergeSort' _
    · have := mergeSort_length (x :: xs)
      intro hcon
      rw [hcon] at this
      simp at this
    · positivity
    · have hmul : q₁ * (((x :: xs).length : ℚ) - 1) ≤ q₂ * (((x :: xs).length : ℚ) - 1) :=
        mul_le_mul_of_nonneg_right h12 hq
      linarith
    · rw [mergeSort_length]
      rw [div_le_iff₀ (by norm_num : (0:ℚ) < 100)]
      nlinarith

/-- C1 counterexample: with the three posterior draws [[0]], [[0]], [[1]],
f = cum_hazard and alpha = 9/10, the plotted central estimate
f(mean of draws) = 1 exceeds the upper percentile band 3/10, refuting
lower <= mean <= upper. -/
theorem C1_counterexample :
    0 < ((9:ℚ)/10) ∧ (9:ℚ)/10 < 1 ∧
    (hpd_upper cum_hazard [[(0:ℚ)], [0], [1]] 1 (9/10)).getD 0 0
      < (hpd_mean cum_hazard [[(0:ℚ)], [0], [1]] 1).getD 0 0 := by
  refine ⟨by norm_num, by norm_num, ?_⟩
  norm_num [hpd_upper, hpd_mean, np_percentile, interpAt, matCol, npMean, cum_hazard, cumsum,
    interval_length, List.range, List.range.loop,
    List.mergeSort_eq_insertionSort, List.insertionSort, List.orderedInsert]

/-- C1 amended: for every hazard sample matrix, every transform f, and every
significance level alpha in (0, 1), the percentile bands of plot_with_hpd are
ordered: the lower band lies below the upper band entrywise. -/
theorem C1_hpd_lower_le_upper (f : List ℚ → List ℚ) (mat : List (List ℚ)) (w : ℕ)
    (alpha : ℚ) (h0 : 0 < alpha) (h1 : alpha < 1) (j : ℕ) (hj : j < w) :
    (hpd_lower f mat w alpha).getD j 0 ≤ (hpd_upper f mat w alpha).getD j 0 := by
  rw [hpd_lower, hpd_upper, getD_range_map _ _ _ _ hj, getD_range_map _ _ _ _ hj]
  exact np_percentile_mono _ _ _ (by linarith) (by linarith) (by linarith)

/-- C1 witness: concrete instantiation with f = cum_hazard, a single draw
[[1]], and alpha = 1/2. -/
theorem C1_witness :
    0 < ((1:ℚ)/2) ∧ (1:ℚ)/2 < 1 ∧ 0 < 1 ∧
    (hpd_lower cum_hazard [[(1:ℚ)]] 1 (1/2)).getD 0 0
      ≤ (hpd_upper cum_hazard [[(1:ℚ)]] 1 (1/2)).getD 0 0 :=
  ⟨by norm_num, by norm_num, by norm_num,
    C1_hpd_lower_le_upper cum_hazard [[(1:ℚ)]] 1 (1/2) (by norm_num) (by norm_num) 0
      (by norm_num)⟩

end SurvivalAnalysis
